import Mathlib

/-!
Verification of the framed serial protocol implemented in
`python_tools/robust_protocol.py` and `pc_side_crc_protocol.py` of the
STM32N6-FaceRecognition repository.

Bytes are modelled as natural numbers (values 0..255 where it matters), byte
strings as lists of naturals, and the stateful parser objects as explicit
state records.  Python exceptions that escape a function are modelled with
dedicated result constructors or `Option` (`none` = the call raised).
-/

namespace STM32Proto

/-- Function `calculate_checksum` in `python_tools/robust_protocol.py` (lines 47-52):
fold of bitwise XOR over the bytes, masked to 8 bits at the end
(`checksum ^= byte` in a loop, then `checksum & 0xFF`). -/
def calcChecksum (l : List Nat) : Nat :=
  (l.foldl (fun a b => a ^^^ b) 0) &&& 255

/-- Method `RobustProtocolParser._validate_header_quickly` (lines 318-337): the
candidate header is 4 bytes `SOF, size_lo, size_hi, checksum`; the payload
size is 16-bit little-endian (`struct.unpack` format BHB).  The function
rejects a wrong start marker (0xAA = 170), a zero or oversized payload size
(`MAX_PAYLOAD_SIZE = 64 * 1024`), and a wrong XOR checksum of the first
three header bytes. -/
def validateHeaderQuickly (h : List Nat) : Bool :=
  match h with
  | s :: lo :: hi :: ck :: _ =>
    let size := lo + 256 * hi
    if s ≠ 170 then false
    else if size > 65536 ∨ size = 0 then false
    else calcChecksum [s, lo, hi] == ck
  | _ => false

/-- The 4-byte header built the way the sender builds it (`test_protocol`,
lines 697-703): marker, little-endian size, XOR checksum of those three
bytes. -/
def mkHeader (marker size : Nat) : List Nat :=
  [marker, size % 256, size / 256, calcChecksum [marker, size % 256, size / 256]]

lemma xorLeftCancel {a x y : Nat} (h : a ^^^ x = a ^^^ y) : x = y := by
  have h2 := congrArg (fun z => a ^^^ z) h
  simpa [← Nat.xor_assoc, Nat.xor_self, Nat.zero_xor] using h2

lemma xorRightCancel {a x y : Nat} (h : x ^^^ a = y ^^^ a) : x = y := by
  apply xorLeftCancel (a := a)
  calc a ^^^ x = x ^^^ a := Nat.xor_comm _ _
    _ = y ^^^ a := h
    _ = a ^^^ y := Nat.xor_comm _ _

lemma and255_of_lt {x : Nat} (h : x < 256) : x &&& 255 = x := by
  have h8 : (255 : Nat) = 2 ^ 8 - 1 := by norm_num
  rw [h8]
  exact Nat.and_pow_two_sub_one_of_lt_two_pow (n := 8) (by simpa using h)

lemma calcChecksum3_eq (a b c : Nat) (ha : a < 256) (hb : b < 256) (hc : c < 256) :
    calcChecksum [a, b, c] = (a ^^^ b) ^^^ c := by
  have h1 : a ^^^ b < 256 := Nat.xor_lt_two_pow (n := 8) ha hb
  have h2 : (a ^^^ b) ^^^ c < 256 := Nat.xor_lt_two_pow (n := 8) h1 hc
  simp only [calcChecksum, List.foldl, Nat.zero_xor]
  exact and255_of_lt h2

/-- C7 counterexample: the claim quantifies over every `(marker, size)`
pair, but a header built with marker 0 (and size 1) has a correct XOR
checksum yet fails `_validate_header_quickly`, because validation also
requires the start marker to be 0xAA. -/
theorem C7_counterexample : validateHeaderQuickly (mkHeader 0 1) = false := by
  decide

/-- C7 (amended): for marker 0xAA and every payload size in [1, 65535], the
built 4-byte header passes `_validate_header_quickly`; and corrupting any
single one of its 4 bytes to any different byte value makes validation
fail. -/
theorem C7_header_roundtrip (size : Nat) (h1 : 1 ≤ size) (h2 : size ≤ 65535) :
    validateHeaderQuickly (mkHeader 170 size) = true ∧
    ∀ i, i < 4 → ∀ v, v < 256 → v ≠ (mkHeader 170 size).getD i 0 →
      validateHeaderQuickly ((mkHeader 170 size).set i v) = false := by
  have hlo : size % 256 < 256 := Nat.mod_lt _ (by norm_num)
  have hhi : size / 256 < 256 := by
    have h3 : size / 256 ≤ 65535 / 256 := Nat.div_le_div_right h2
    omega
  have hsize : size % 256 + 256 * (size / 256) = size := Nat.mod_add_div size 256
  constructor
  · simp only [mkHeader, validateHeaderQuickly, hsize]
    have hms : ¬ (size > 65536 ∨ size = 0) := by omega
    simp [hms]
  · intro i hi4 v hv256 hvne
    interval_cases i
    · -- corrupt the marker byte
      have hva : v ≠ 170 := by simpa [mkHeader] using hvne
      simp [mkHeader, validateHeaderQuickly, List.set, hva]
    · -- corrupt the low size byte
      have hvl : v ≠ size % 256 := by simpa [mkHeader] using hvne
      simp only [mkHeader, List.set, validateHeaderQuickly]
      rw [if_neg (by simp)]
      by_cases hz : v + 256 * (size / 256) > 65536 ∨ v + 256 * (size / 256) = 0
      · rw [if_pos hz]
      · rw [if_neg hz]
        simp only [beq_eq_false_iff_ne, ne_eq]
        intro heq
        rw [calcChecksum3_eq 170 v _ (by norm_num) hv256 hhi,
            calcChecksum3_eq 170 _ _ (by norm_num) hlo hhi] at heq
        exact hvl (xorLeftCancel (xorRightCancel heq))
    · -- corrupt the high size byte
      have hvh : v ≠ size / 256 := by simpa [mkHeader] using hvne
      simp only [mkHeader, List.set, validateHeaderQuickly]
      rw [if_neg (by simp)]
      by_cases hz : size % 256 + 256 * v > 65536 ∨ size % 256 + 256 * v = 0
      · rw [if_pos hz]
      · rw [if_neg hz]
        simp only [beq_eq_false_iff_ne, ne_eq]
        intro heq
        rw [calcChecksum3_eq 170 _ v (by norm_num) hlo hv256,
            calcChecksum3_eq 170 _ _ (by norm_num) hlo hhi] at heq
        exact hvh (xorLeftCancel heq)
    · -- corrupt the checksum byte
      have hvc : v ≠ calcChecksum [170, size % 256, size / 256] := by
        simpa [mkHeader] using hvne
      simp only [mkHeader, List.set, validateHeaderQuickly]
      rw [if_neg (by simp)]
      rw [hsize, if_neg (by omega : ¬ (size > 65536 ∨ size = 0))]
      simp only [beq_eq_false_iff_ne, ne_eq]
      exact fun h => hvc h.symm

/-- Witness for C7: concrete size 1; the intact header validates and
corrupting its checksum byte to 0 fails. -/
theorem C7_witness :
    validateHeaderQuickly (mkHeader 170 1) = true ∧
    validateHeaderQuickly ((mkHeader 170 1).set 3 0) = false :=
  ⟨(C7_header_roundtrip 1 (by decide) (by decide)).1,
   (C7_header_roundtrip 1 (by decide) (by decide)).2 3 (by decide) 0 (by decide)
     (by decide)⟩

/-! ## STM32-compatible CRC-32 (`Crc32` class, lines 55-97) -/

/-- Polynomial passed to the global instance: `Crc32(0x04C11DB7)` (line 84). -/
def crcPoly : Nat := 0x04C11DB7

/-- One iteration of the table-generation inner loop (line 63):
`c = (c << 1) ^ _poly if (c & 0x80000000) else c << 1`.  The 32-bit mask is
applied only when the entry is stored, exactly as in the source. -/
def tstep (c : Nat) : Nat :=
  if c &&& 0x80000000 ≠ 0 then (c <<< 1) ^^^ crcPoly else c <<< 1

/-- Entry `i` of `Crc32.crc_table` (lines 60-64): 8 iterations of `tstep`
started from `i << 24`, masked to 32 bits. -/
def crcTableEntry (i : Nat) : Nat := (tstep^[8] (i <<< 24)) &&& 0xFFFFFFFF

/-- The per-byte update of `Crc32.calculate` (line 75):
`crc = ((crc << 8) & 0xFFFFFFFF) ^ crc_table[(crc >> 24) ^ byte]`. -/
def crcWordStep (crc b : Nat) : Nat :=
  ((crc <<< 8) &&& 0xFFFFFFFF) ^^^ crcTableEntry ((crc >>> 24) ^^^ b)

/-- The loop of `Crc32.calculate` (lines 70-76): the buffer is consumed four
bytes at a time, each group fed in reversed order (`buf[i+3], buf[i+2],
buf[i+1], buf[i]`).  When 1-3 bytes remain, the source indexes past the end
of the buffer (`buf[i + 3]`) and raises `IndexError`; that outcome is
modelled as `none`. -/
def crcCalcGo : Nat → List Nat → Option Nat
  | crc, [] => some crc
  | crc, b0 :: b1 :: b2 :: b3 :: rest =>
    crcCalcGo (crcWordStep (crcWordStep (crcWordStep (crcWordStep crc b3) b2) b1) b0) rest
  | _, _ => none

/-- Function `Crc32.calculate` alias `calculate_stm32_crc32` (lines 67-76, 86-97):
initial value 0xFFFFFFFF; `none` models the `IndexError` raised on a buffer
whose length is not a multiple of 4. -/
def crcCalculate (buf : List Nat) : Option Nat := crcCalcGo 0xFFFFFFFF buf

/-- One bit of the reference MSB-first CRC-32 update named by the claim:
shift left, XOR the polynomial when bit 31 was set, stay within 32 bits. -/
def bitStep (c : Nat) : Nat :=
  (if Nat.testBit c 31 then (c <<< 1) ^^^ crcPoly else c <<< 1) &&& 0xFFFFFFFF

/-- Reference bit-level byte update: XOR the byte into the top 8 bits, then
8 single-bit steps. -/
def bitByte (crc b : Nat) : Nat := bitStep^[8] (crc ^^^ (b <<< 24))

/-- Reference computation following the claim's words: the input is
processed in consecutive 4-byte groups with byte order reversed within each
group, each byte fed to the bit-level MSB-first update.  A trailing
incomplete group returns the accumulator; that case is outside the amended
claim (the source raises there instead of returning anything). -/
def crcBitRefGo : Nat → List Nat → Nat
  | crc, b0 :: b1 :: b2 :: b3 :: rest =>
    crcBitRefGo (bitByte (bitByte (bitByte (bitByte crc b3) b2) b1) b0) rest
  | crc, _ => crc

/-- Bit-level reference CRC: initial value 0xFFFFFFFF, no final XOR, no
reflection. -/
def crcBitRefW (buf : List Nat) : Nat := crcBitRefGo 0xFFFFFFFF buf

lemma andM (a : Nat) : a &&& 4294967295 = a % 4294967296 := by
  have h : (4294967295 : Nat) = 2 ^ 32 - 1 := by norm_num
  have h2 : (2 : Nat) ^ 32 = 4294967296 := by norm_num
  rw [h, Nat.and_pow_two_sub_one_eq_mod, h2]

lemma shiftLeft_xor_distrib (x y n : Nat) :
    (x ^^^ y) <<< n = (x <<< n) ^^^ (y <<< n) := by
  apply Nat.eq_of_testBit_eq
  intro i
  by_cases h : n ≤ i <;>
    simp [Nat.testBit_shiftLeft, Nat.testBit_xor, h]

lemma xorPP (a b p : Nat) : (a ^^^ p) ^^^ (b ^^^ p) = a ^^^ b := by
  rw [Nat.xor_assoc]
  congr 1
  rw [Nat.xor_comm b p, ← Nat.xor_assoc, Nat.xor_self, Nat.zero_xor]

lemma xorRightComm (a b c : Nat) : (a ^^^ b) ^^^ c = (a ^^^ c) ^^^ b := by
  rw [Nat.xor_assoc, Nat.xor_comm b c, ← Nat.xor_assoc]

/-- Linearity: `bitStep` distributes over XOR (the CRC update is affine over GF(2)). -/
lemma bitStep_xor (x y : Nat) : bitStep (x ^^^ y) = bitStep x ^^^ bitStep y := by
  unfold bitStep
  rw [Nat.testBit_xor]
  cases hx : Nat.testBit x 31 <;> cases hy : Nat.testBit y 31
  · show ((x ^^^ y) <<< 1) &&& 4294967295 =
      ((x <<< 1) &&& 4294967295) ^^^ ((y <<< 1) &&& 4294967295)
    rw [← Nat.and_xor_distrib_right, ← shiftLeft_xor_distrib]
  · show (((x ^^^ y) <<< 1) ^^^ crcPoly) &&& 4294967295 =
      ((x <<< 1) &&& 4294967295) ^^^ (((y <<< 1) ^^^ crcPoly) &&& 4294967295)
    rw [← Nat.and_xor_distrib_right]
    congr 1
    rw [shiftLeft_xor_distrib, Nat.xor_assoc]
  · show (((x ^^^ y) <<< 1) ^^^ crcPoly) &&& 4294967295 =
      (((x <<< 1) ^^^ crcPoly) &&& 4294967295) ^^^ ((y <<< 1) &&& 4294967295)
    rw [← Nat.and_xor_distrib_right]
    congr 1
    rw [shiftLeft_xor_distrib, xorRightComm]
  · show ((x ^^^ y) <<< 1) &&& 4294967295 =
      (((x <<< 1) ^^^ crcPoly) &&& 4294967295) ^^^
        (((y <<< 1) ^^^ crcPoly) &&& 4294967295)
    rw [← Nat.and_xor_distrib_right]
    congr 1
    rw [xorPP, shiftLeft_xor_distrib]

lemma bitStepIter_xor (k : Nat) :
    ∀ x y, bitStep^[k] (x ^^^ y) = bitStep^[k] x ^^^ bitStep^[k] y := by
  induction k with
  | zero => intro x y; rfl
  | succ k ih =>
    intro x y
    rw [Function.iterate_succ_apply, Function.iterate_succ_apply,
      Function.iterate_succ_apply, bitStep_xor]
    exact ih _ _

lemma bitStep_small {c : Nat} (h : c < 2147483648) : bitStep c = 2 * c := by
  unfold bitStep
  have hbit : Nat.testBit c 31 = false :=
    Nat.testBit_lt_two_pow (by norm_num at h ⊢; omega)
  rw [hbit]
  show (c <<< 1) &&& 4294967295 = 2 * c
  rw [Nat.shiftLeft_eq, andM, pow_one]
  omega

lemma bitStepIter_mul (k : Nat) :
    ∀ c, c * 2 ^ k < 4294967296 → bitStep^[k] c = c * 2 ^ k := by
  induction k with
  | zero => intro c _; simp
  | succ k ih =>
    intro c h
    have h2 : (2 : Nat) ≤ 2 ^ (k + 1) := by
      calc (2 : Nat) = 2 ^ 1 := by norm_num
        _ ≤ 2 ^ (k + 1) := Nat.pow_le_pow_right (by norm_num) (by omega)
    have hc2 : c * 2 < 4294967296 :=
      lt_of_le_of_lt (Nat.mul_le_mul (Nat.le_refl c) h2) h
    have hc31 : c < 2147483648 := by omega
    rw [Function.iterate_succ_apply, bitStep_small hc31]
    have heq : (2 * c) * 2 ^ k = c * 2 ^ (k + 1) := by ring
    rw [ih (2 * c) (by rw [heq]; exact h), heq]

lemma testBit31_and_mask (c : Nat) :
    Nat.testBit (c &&& 4294967295) 31 = Nat.testBit c 31 := by
  have h : (4294967295 : Nat) = 2 ^ 32 - 1 := by norm_num
  rw [h, Nat.testBit_and, Nat.testBit_two_pow_sub_one]
  simp

lemma and_two_pow_31_ne (c : Nat) :
    (c &&& 2147483648 ≠ 0) ↔ Nat.testBit c 31 = true := by
  have h : (2147483648 : Nat) = 2 ^ 31 := by norm_num
  rw [h, Nat.and_two_pow]
  cases hb : Nat.testBit c 31 <;> simp [hb]

lemma shl1_mask (c : Nat) :
    (c <<< 1) &&& 4294967295 = ((c &&& 4294967295) <<< 1) &&& 4294967295 := by
  rw [andM, andM, andM, Nat.shiftLeft_eq, Nat.shiftLeft_eq, pow_one]
  omega

/-- Masking to 32 bits commutes with one table-generation step: the source's
unmasked `tstep` agrees with the masked `bitStep` after a final mask. -/
lemma tstep_mask (c : Nat) :
    (tstep c) &&& 4294967295 = bitStep (c &&& 4294967295) := by
  unfold tstep bitStep
  rw [testBit31_and_mask]
  have hiff := and_two_pow_31_ne c
  cases hb : Nat.testBit c 31
  · rw [hb] at hiff
    have hno : ¬ (c &&& 2147483648 ≠ 0) := fun h => by simpa using hiff.mp h
    rw [if_neg hno]
    show (c <<< 1) &&& 4294967295 = ((c &&& 4294967295) <<< 1) &&& 4294967295
    exact shl1_mask c
  · rw [hb] at hiff
    rw [if_pos (hiff.mpr rfl)]
    show ((c <<< 1) ^^^ crcPoly) &&& 4294967295 =
      (((c &&& 4294967295) <<< 1) ^^^ crcPoly) &&& 4294967295
    rw [Nat.and_xor_distrib_right, Nat.and_xor_distrib_right, shl1_mask]

lemma tstepIter_mask (k : Nat) :
    ∀ c, (tstep^[k] c) &&& 4294967295 = bitStep^[k] (c &&& 4294967295) := by
  induction k with
  | zero => intro c; rfl
  | succ k ih =>
    intro c
    rw [Function.iterate_succ_apply, Function.iterate_succ_apply, ih,
      tstep_mask]

/-- The source's table entry equals 8 bit-level steps on `h << 24`. -/
lemma crcTableEntry_eq {h : Nat} (hh : h < 256) :
    crcTableEntry h = bitStep^[8] (h <<< 24) := by
  unfold crcTableEntry
  rw [tstepIter_mask]
  refine congrArg (bitStep^[8]) ?_
  rw [andM, Nat.shiftLeft_eq, Nat.mod_eq_of_lt]
  norm_num
  omega

/-- Every natural splits as XOR of its low 24 bits and the rest shifted
down and back up. -/
lemma split_high_low (crc : Nat) :
    crc = (crc % 16777216) ^^^ ((crc >>> 24) <<< 24) := by
  apply Nat.eq_of_testBit_eq
  intro i
  have h24 : (16777216 : Nat) = 2 ^ 24 := by norm_num
  rw [Nat.testBit_xor, h24, Nat.testBit_mod_two_pow, Nat.testBit_shiftLeft,
    Nat.testBit_shiftRight]
  by_cases hlt : i < 24
  · simp [hlt, show ¬ 24 ≤ i by omega]
  · simp [hlt, show 24 ≤ i by omega, show 24 + (i - 24) = i by omega]

lemma crc_shr24_lt {crc : Nat} (hc : crc < 4294967296) : crc >>> 24 < 256 := by
  omega

lemma ltN_xor {a b : Nat} (ha : a < 4294967296) (hb : b < 4294967296) :
    a ^^^ b < 4294967296 := by
  have h := Nat.xor_lt_two_pow (n := 32) (x := a) (y := b) (by omega) (by omega)
  omega

lemma crcWordStep_lt (crc b : Nat) : crcWordStep crc b < 4294967296 := by
  unfold crcWordStep
  apply ltN_xor
  · rw [andM]
    exact Nat.mod_lt _ (by norm_num)
  · unfold crcTableEntry
    rw [andM]
    exact Nat.mod_lt _ (by norm_num)

/-- The table-driven byte update of the source equals the bit-level
reference byte update, for 32-bit accumulators and byte inputs. -/
lemma bitByte_eq_wordStep {crc b : Nat} (hc : crc < 4294967296) (hb : b < 256) :
    bitByte crc b = crcWordStep crc b := by
  have hhi : crc >>> 24 < 256 := crc_shr24_lt hc
  have hxb : (crc >>> 24) ^^^ b < 256 := by
    have h := Nat.xor_lt_two_pow (n := 8) (x := crc >>> 24) (y := b)
      (by omega) (by omega)
    omega
  unfold bitByte crcWordStep
  have hdec : crc ^^^ (b <<< 24) =
      (crc % 16777216) ^^^ (((crc >>> 24) ^^^ b) <<< 24) := by
    conv_lhs => rw [split_high_low crc]
    rw [Nat.xor_assoc, ← shiftLeft_xor_distrib]
  rw [hdec, bitStepIter_xor 8, crcTableEntry_eq hxb]
  have hlt : (crc % 16777216) * 2 ^ 8 < 4294967296 := by omega
  rw [bitStepIter_mul 8 (crc % 16777216) hlt, andM, Nat.shiftLeft_eq crc 8,
    show (4294967296 : Nat) = 16777216 * 2 ^ 8 by norm_num,
    Nat.mul_mod_mul_right]

/-- The whole table-driven loop agrees with the bit-level reference on
inputs whose length is a multiple of four. -/
lemma crcCalcGo_eq : ∀ (buf : List Nat) (crc : Nat), crc < 4294967296 →
    (∀ b ∈ buf, b < 256) → buf.length % 4 = 0 →
    crcCalcGo crc buf = some (crcBitRefGo crc buf)
  | [], crc, _, _, _ => rfl
  | [_], _, _, _, hlen => by simp at hlen
  | [_, _], _, _, _, hlen => by simp at hlen
  | [_, _, _], _, _, _, hlen => by simp at hlen
  | b0 :: b1 :: b2 :: b3 :: rest, crc, hc, hb, hlen => by
    have hb0 : b0 < 256 := hb _ (by simp)
    have hb1 : b1 < 256 := hb _ (by simp)
    have hb2 : b2 < 256 := hb _ (by simp)
    have hb3 : b3 < 256 := hb _ (by simp)
    have c1lt : crcWordStep crc b3 < 4294967296 := crcWordStep_lt _ _
    have c2lt : crcWordStep (crcWordStep crc b3) b2 < 4294967296 :=
      crcWordStep_lt _ _
    have c3lt : crcWordStep (crcWordStep (crcWordStep crc b3) b2) b1 <
        4294967296 := crcWordStep_lt _ _
    show crcCalcGo
        (crcWordStep (crcWordStep (crcWordStep (crcWordStep crc b3) b2) b1) b0)
        rest =
      some (crcBitRefGo
        (bitByte (bitByte (bitByte (bitByte crc b3) b2) b1) b0) rest)
    rw [bitByte_eq_wordStep hc hb3, bitByte_eq_wordStep c1lt hb2,
      bitByte_eq_wordStep c2lt hb1, bitByte_eq_wordStep c3lt hb0]
    exact crcCalcGo_eq rest _ (crcWordStep_lt _ _)
      (fun b hbm => hb b (by simp [hbm]))
      (by simp only [List.length_cons] at hlen ⊢; omega)

/-- C2 counterexample: on the single-byte input `[0]` (length not a
multiple of four) `Crc32.calculate` raises `IndexError` (`buf[i + 3]` with
`i = 0` on a length-1 buffer) instead of returning a CRC value, so the
claim's quantification over every input byte string fails. -/
theorem C2_counterexample : crcCalculate [0] = none := rfl

/-- C2 (amended): for every input whose length is a multiple of 4 (byte
values < 256), `calculate_stm32_crc32` returns exactly the CRC-32 defined
by the direct bit-level reference computation: polynomial 0x04C11DB7,
initial value 0xFFFFFFFF, 4-byte groups with byte order reversed within
each group, standard MSB-first update, no final XOR, no bit reflection.
On other lengths the source raises `IndexError` instead of returning. -/
theorem C2_table_crc_eq_bit_reference (buf : List Nat)
    (hb : ∀ b ∈ buf, b < 256) (hlen : buf.length % 4 = 0) :
    crcCalculate buf = some (crcBitRefW buf) :=
  crcCalcGo_eq buf 4294967295 (by norm_num) hb hlen

/-- Witness for C2 at the concrete input `[0x31, 0x32, 0x33, 0x34]`. -/
theorem C2_witness :
    crcCalculate [49, 50, 51, 52] = some (crcBitRefW [49, 50, 51, 52]) :=
  C2_table_crc_eq_bit_reference [49, 50, 51, 52] (by decide) (by decide)

/-! ## zlib CRC-32 used by the older protocol generation
(`pc_side_crc_protocol.py`) -/

/-- Modelled from the spec: `EnhancedProtocolReceiver.validate_crc32`
(`pc_side_crc_protocol.py` lines 75-78) calls `zlib.crc32`, a Python
standard-library function whose code is not in this repository.  It is the
standard IEEE/Ethernet CRC-32 that the spec's glossary contrasts with the
hardware-compatible variant: reflected polynomial 0xEDB88320, initial value
0xFFFFFFFF, final XOR 0xFFFFFFFF, LSB-first processing.  One bit step: -/
def zlibStep (c : Nat) : Nat :=
  if c &&& 1 = 1 then (c >>> 1) ^^^ 0xEDB88320 else c >>> 1

/-- One byte of the standard reflected CRC-32: XOR into the low bits, then
8 LSB-first steps. -/
def zlibByte (crc b : Nat) : Nat := zlibStep^[8] (crc ^^^ b)

/-- Value of `zlib.crc32(data) & 0xFFFFFFFF` as used by
`EnhancedProtocolReceiver.validate_crc32`. -/
def zlibCrc32 (l : List Nat) : Nat :=
  (l.foldl zlibByte 0xFFFFFFFF) ^^^ 0xFFFFFFFF

/-- CRC acceptance of a frame payload in `RobustProtocolParser.parse_message`
(lines 419-424): STM32 CRC over the payload with the 3-byte message
sub-header excluded, compared against the received CRC word.  The branch in
which `Crc32.calculate` raises accepts nothing. -/
def robustFrameCrcOk (payload : List Nat) (received : Nat) : Bool :=
  match crcCalculate (payload.drop 3) with
  | some c => c == received
  | none => false

/-- CRC acceptance of a frame payload in
`EnhancedProtocolReceiver.read_message` (`pc_side_crc_protocol.py` lines
130-140): zlib CRC-32 over the full payload including the 3-byte message
sub-header. -/
def enhancedFrameCrcOk (payload : List Nat) (received : Nat) : Bool :=
  zlibCrc32 payload == received

/-- C9: the CRC validation predicates of the two protocol generations are
not extensionally equal: the 3-byte payload `[5, 0, 0]` with trailing CRC
word 0xFFFFFFFF is accepted by `RobustProtocolParser` (the STM32 CRC of the
empty post-sub-header region is the initial value 0xFFFFFFFF) but rejected
by `EnhancedProtocolReceiver` (zlib CRC-32 of the full payload differs). -/
theorem C9_crc_predicates_differ :
    ∃ (payload : List Nat) (received : Nat),
      robustFrameCrcOk payload received = true ∧
      enhancedFrameCrcOk payload received = false :=
  ⟨[5, 0, 0], 4294967295, by decide, by decide⟩

/-! ## `CircularBuffer` (lines 116-236) -/

/-- State of `CircularBuffer`: the backing `bytearray` (as a list), the
declared size, both cursors, and the count of unread bytes.  The
`threading.Lock` field only serializes access and carries no state. -/
structure CB where
  buffer : List Nat
  size : Nat
  write_pos : Nat
  read_pos : Nat
  data_available : Nat
deriving DecidableEq

/-- Python slice assignment `buffer[start:start+len(d)] = d`.  Every slice
assignment in `CircularBuffer.write` assigns a slice of exactly the length
of the data written, for which this is the semantics. -/
def sliceAssign (l : List Nat) (start : Nat) (d : List Nat) : List Nat :=
  l.take start ++ d ++ l.drop (start + d.length)

/-- Constructor `CircularBuffer.__init__` (lines 119-125): zero-filled backing array,
cursors and count at 0. -/
def CB.init (s : Nat) : CB := ⟨List.replicate s 0, s, 0, 0, 0⟩

/-- Method `CircularBuffer.write` (lines 127-183), translated branch by branch:
fast path when the data fits, otherwise eviction of
`min(missing + 1024, data_available)` oldest bytes followed by a contiguous
or split write, with a final truncation branch when the remainder still
does not fit. -/
def CB.write (cb : CB) (data : List Nat) : Nat × CB :=
  if data = [] then (0, cb)
  else
    let dataLen := data.length
    if cb.data_available + dataLen ≤ cb.size then
      if cb.write_pos + dataLen ≤ cb.size then
        (dataLen,
          { cb with
            buffer := sliceAssign cb.buffer cb.write_pos data,
            write_pos := (cb.write_pos + dataLen) % cb.size,
            data_available := cb.data_available + dataLen })
      else
        let firstChunk := cb.size - cb.write_pos
        (dataLen,
          { cb with
            buffer := sliceAssign
              (sliceAssign cb.buffer cb.write_pos (data.take firstChunk)) 0
              (data.drop firstChunk),
            write_pos := dataLen - firstChunk,
            data_available := cb.data_available + dataLen })
    else
      let spaceAvailable := cb.size - cb.data_available
      let cb1 :=
        if spaceAvailable < dataLen then
          let bytesToDrop := min (dataLen - spaceAvailable + 1024) cb.data_available
          { cb with
            read_pos := (cb.read_pos + bytesToDrop) % cb.size,
            data_available := cb.data_available - bytesToDrop }
        else cb
      if cb1.write_pos + dataLen ≤ cb1.size then
        (dataLen,
          { cb1 with
            buffer := sliceAssign cb1.buffer cb1.write_pos data,
            write_pos := (cb1.write_pos + dataLen) % cb1.size,
            data_available := min (cb1.data_available + dataLen) cb1.size })
      else
        let firstChunk := cb1.size - cb1.write_pos
        let b1 := sliceAssign cb1.buffer cb1.write_pos (data.take firstChunk)
        let remaining := dataLen - firstChunk
        if remaining ≤ cb1.size - cb1.data_available then
          (dataLen,
            { cb1 with
              buffer := sliceAssign b1 0 (data.drop firstChunk),
              write_pos := remaining,
              data_available := min (cb1.data_available + dataLen) cb1.size })
        else
          let remaining2 := cb1.size - cb1.data_available
          let dataLen2 := firstChunk + remaining2
          (dataLen2,
            { cb1 with
              buffer := sliceAssign b1 0 ((data.drop firstChunk).take remaining2),
              write_pos := remaining2,
              data_available := min (cb1.data_available + dataLen2) cb1.size })

/-- Method `CircularBuffer.peek` (lines 185-201). -/
def CB.peek (cb : CB) (len : Nat) : Option (List Nat) :=
  if cb.data_available < len then none
  else if cb.read_pos + len ≤ cb.size then
    some ((cb.buffer.drop cb.read_pos).take len)
  else
    some (cb.buffer.drop cb.read_pos ++
      cb.buffer.take (len - (cb.size - cb.read_pos)))

/-- Method `CircularBuffer.consume` (lines 203-224). -/
def CB.consume (cb : CB) (len : Nat) : Option (List Nat) × CB :=
  if cb.data_available < len then (none, cb)
  else if cb.read_pos + len ≤ cb.size then
    (some ((cb.buffer.drop cb.read_pos).take len),
     { cb with read_pos := (cb.read_pos + len) % cb.size,
               data_available := cb.data_available - len })
  else
    (some (cb.buffer.drop cb.read_pos ++
       cb.buffer.take (len - (cb.size - cb.read_pos))),
     { cb with read_pos := len - (cb.size - cb.read_pos),
               data_available := cb.data_available - len })

/-- Method `CircularBuffer.available` (lines 226-229). -/
def CB.availableB (cb : CB) : Nat := cb.data_available

/-- Method `CircularBuffer.clear` (lines 231-236). -/
def CB.clear (cb : CB) : CB :=
  { cb with read_pos := 0, write_pos := 0, data_available := 0 }

/-- The invariant named by the claim (spec section 3): count within
capacity and both cursors strictly below capacity. -/
def CBInv (cb : CB) : Prop :=
  cb.data_available ≤ cb.size ∧ cb.read_pos < cb.size ∧ cb.write_pos < cb.size

instance (cb : CB) : Decidable (CBInv cb) :=
  inferInstanceAs (Decidable (_ ∧ _ ∧ _))

/-- C5 counterexample: a single oversized `write` (8 bytes into a fresh
capacity-4 buffer) takes the truncation path and leaves
`write_pos == size`, violating the invariant `write_pos < size`. -/
theorem C5_counterexample :
    ¬ CBInv ((CB.init 4).write (List.replicate 8 0)).2 := by decide

/-- C5 (amended): for a buffer of positive capacity satisfying the
invariant, `consume` and `clear` preserve it for every argument (`peek`
mutates nothing in the source, so it preserves it trivially), and `write`
preserves it exactly when `write_pos + len(data) < 2 * size`; when
`write_pos + len(data) >= 2 * size` (which requires `len(data) > size`)
the call leaves `write_pos == size`, violating the invariant. -/
theorem C5_invariant_preservation (cb : CB) (n : Nat) (data : List Nat)
    (hs : 0 < cb.size) (hinv : CBInv cb) :
    CBInv (cb.consume n).2 ∧ CBInv cb.clear ∧
      (CBInv (cb.write data).2 ↔ cb.write_pos + data.length < 2 * cb.size) := by
  obtain ⟨ha, hr, hw⟩ := hinv
  refine ⟨?_, ?_, ?_⟩
  · unfold CB.consume
    split_ifs with hc1 hc2 <;> unfold CBInv <;> dsimp only
    · exact ⟨ha, hr, hw⟩
    · exact ⟨by omega, Nat.mod_lt _ hs, hw⟩
    · exact ⟨by omega, by omega, hw⟩
  · exact ⟨Nat.zero_le _, hs, hs⟩
  · simp only [CB.write]
    by_cases hd : data = []
    · subst hd
      rw [if_pos rfl]
      dsimp only
      exact ⟨fun _ => by simp; omega, fun _ => ⟨ha, hr, hw⟩⟩
    · rw [if_neg hd]
      have hlen : 0 < data.length := List.length_pos.mpr hd
      split_ifs with h1 h2 h3 h4 h5 <;> unfold CBInv <;> dsimp only at *
      all_goals try (exfalso; omega)
      · -- fast contiguous
        exact ⟨fun _ => by omega,
          fun _ => ⟨by omega, hr, Nat.mod_lt _ hs⟩⟩
      · -- fast split
        exact ⟨fun _ => by omega, fun _ => ⟨by omega, hr, by omega⟩⟩
      · -- after eviction, contiguous
        exact ⟨fun _ => by omega,
          fun _ => ⟨by omega, Nat.mod_lt _ hs, Nat.mod_lt _ hs⟩⟩
      · -- after eviction, split write, remainder fits
        refine ⟨fun hcb => ?_, fun hlt => ⟨?_, Nat.mod_lt _ hs, ?_⟩⟩
        · have h6 := hcb.2.2
          omega
        · omega
        · omega
      · -- truncation path: write_pos becomes size, both sides false
        refine ⟨fun hcb => absurd hcb.2.2 ?_, fun hlt => absurd hlt ?_⟩
        · omega
        · omega

/-- Witness for C5 at capacity 4: a 2-byte write from the fresh state
satisfies the preservation criterion `write_pos + len < 2 * size`. -/
theorem C5_witness :
    CBInv ((CB.init 4).consume 1).2 ∧ CBInv (CB.init 4).clear ∧
      (CBInv ((CB.init 4).write [1, 2]).2 ↔
        (CB.init 4).write_pos + [1, 2].length < 2 * (CB.init 4).size) :=
  C5_invariant_preservation (CB.init 4) 1 [1, 2] (by decide) (by decide)

/-- C4 counterexample: capacity 4, fresh buffer, one write of the 6 bytes
`[0,1,2,3,4,5]`.  The newest 4 bytes of the written data are `[2,3,4,5]`,
but the buffer retains `[4,5,2,3]` (the newest bytes rotated out of FIFO
order), so "the retained bytes are exactly the newest C bytes ... readable
in order via consume" fails. -/
theorem C4_counterexample :
    (((CB.init 4).write [0, 1, 2, 3, 4, 5]).2.consume 4).1 ≠
      some [2, 3, 4, 5] := by decide

lemma write_overflow_avail (cb : CB) (data : List Nat) (_hs : 0 < cb.size)
    (hinv : CBInv cb) (hL : cb.size < data.length) :
    ((cb.write data).2).availableB = cb.size := by
  obtain ⟨ha, hr, hw⟩ := hinv
  have hd : ¬ data = [] := by
    intro h
    rw [h] at hL
    simp at hL
  unfold CB.availableB
  simp only [CB.write]
  rw [if_neg hd]
  split_ifs with h1 h2 h3 h4 h5 <;> dsimp only at * <;> omega

lemma write_overflow_fresh (C : Nat) (data : List Nat) (h0 : 0 < C)
    (h1 : C < data.length) (h2 : data.length ≤ 2 * C) :
    (((CB.init C).write data).2.consume C).1 =
      some (data.drop C ++ (data.take C).drop (data.length - C)) := by
  have hd : ¬ data = [] := by
    intro h
    rw [h] at h1
    simp at h1
  simp only [CB.write, CB.init]
  rw [if_neg hd]
  simp only [Nat.sub_zero, Nat.zero_add, Nat.add_zero, Nat.min_zero,
    Nat.zero_mod, Nat.sub_self]
  split_ifs with hc1 hc2 hc3 <;> dsimp only at * <;> try (exfalso; omega)
  dsimp only [CB.consume]
  simp only [Nat.zero_add, Nat.sub_zero] at *
  have htklen : (data.take C).length = C := by
    rw [List.length_take]
    omega
  have hdroprep : (List.replicate C (0 : Nat)).drop ((data.take C).length) = [] := by
    apply List.drop_eq_nil_of_le
    rw [List.length_replicate, htklen]
  have hbuf1 : sliceAssign (List.replicate C 0) 0 (data.take C) = data.take C := by
    unfold sliceAssign
    rw [List.take_zero, Nat.zero_add, hdroprep]
    simp
  have hdlen : (data.drop C).length = data.length - C := by
    rw [List.length_drop]
  have hbuf2 : sliceAssign (data.take C) 0 (data.drop C) =
      data.drop C ++ (data.take C).drop (data.length - C) := by
    unfold sliceAssign
    rw [List.take_zero, Nat.zero_add, hdlen]
    simp
  have hlenb : (data.drop C ++ (data.take C).drop (data.length - C)).length ≤ C := by
    rw [List.length_append, List.length_drop, List.length_drop, List.length_take]
    omega
  have hmin : min data.length C = C := by omega
  rw [hbuf1, hbuf2, hmin, if_neg (lt_irrefl C), if_pos (le_refl C)]
  dsimp only
  rw [List.drop_zero, List.take_of_length_le hlenb]

/-- C4 (amended): a single `write` of more bytes than the capacity, from
any state satisfying the invariant, returns normally (the model is total:
no slice assignment in the source can raise) and leaves
`available() == capacity`; but the retained bytes are not the newest C
bytes in FIFO order.  From a fresh buffer with `C < len <= 2*C` the
readable contents are `data[C:] ++ data[len-C:C]` — a cyclic rotation of
the newest C bytes `data[len-C:]`, not those bytes in order. -/
theorem C4_overflow_eviction :
    (∀ (cb : CB) (data : List Nat), 0 < cb.size → CBInv cb →
       cb.size < data.length → ((cb.write data).2).availableB = cb.size) ∧
    (∀ (C : Nat) (data : List Nat), 0 < C → C < data.length →
       data.length ≤ 2 * C →
       (((CB.init C).write data).2.consume C).1 =
         some (data.drop C ++ (data.take C).drop (data.length - C))) :=
  ⟨fun cb data hs hinv hL => write_overflow_avail cb data hs hinv hL,
   fun C data h0 h1 h2 => write_overflow_fresh C data h0 h1 h2⟩

/-- Witness for C4 at capacity 4 and data `[0,1,2,3,4,5]`. -/
theorem C4_witness :
    ((CB.init 4).write [0, 1, 2, 3, 4, 5]).2.availableB = 4 ∧
    (((CB.init 4).write [0, 1, 2, 3, 4, 5]).2.consume 4).1 =
      some [4, 5, 2, 3] :=
  ⟨C4_overflow_eviction.1 (CB.init 4) [0, 1, 2, 3, 4, 5] (by decide)
      (by decide) (by decide),
   (C4_overflow_eviction.2 4 [0, 1, 2, 3, 4, 5] (by decide) (by decide)
      (by decide)).trans (by decide)⟩

/-! ## `RobustProtocolParser` (lines 238-524)

The parser's `CircularBuffer` is represented by the list of its unread
bytes: under the buffer invariant, `peek(n)` returns the first `n` of those
bytes (`None` when fewer are buffered), `consume(n)` additionally drops
them, and `available()` is their number — the contract established for the
`CB` model above.  Statistics counters and the per-type `last_sequence_id`
dictionary are explicit fields; timing-only statistics are omitted. -/

structure PState where
  buf : List Nat
  sync_errors : Nat
  checksum_errors : Nat
  crc_errors : Nat
  parse_errors : Nat
  messages_received : Nat
  messages_dropped : Nat
  last_sequence_id : Nat → Option Nat

/-- A freshly constructed parser: empty buffer, zeroed statistics, empty
sequence dictionary (lines 241-258). -/
def initPState : PState :=
  ⟨[], 0, 0, 0, 0, 0, 0, fun _ => none⟩

/-- Method `RobustProtocolParser.add_data` (lines 271-286): append the incoming
bytes (the remaining body is timing/throughput bookkeeping only; the
256 KiB `CircularBuffer` drops nothing at the buffer sizes used here). -/
def addData (st : PState) (data : List Nat) : PState :=
  { st with buf := st.buf ++ data }

/-- Result of the scan loop of `find_sync` (lines 293-309): `found` =
returned True, `noData` = `peek(1)` returned nothing, `exhausted` = the
window was used up; each carries the remaining unread bytes. -/
inductive FSR where
  | found : List Nat → FSR
  | noData : List Nat → FSR
  | exhausted : List Nat → FSR

/-- The scan loop of `find_sync`: peek one byte; an SOF byte (0xAA = 170)
whose 4-byte header validates quickly — or with fewer than 4 bytes
buffered — succeeds without consuming; any other byte is consumed and the
scan continues. -/
def findSyncGo : Nat → List Nat → FSR
  | 0, l => .exhausted l
  | _ + 1, [] => .noData []
  | fuel + 1, b :: rest =>
    if b = 170 then
      if 4 ≤ (b :: rest).length then
        if validateHeaderQuickly ((b :: rest).take 4) then .found (b :: rest)
        else findSyncGo fuel rest
      else .found (b :: rest)
    else findSyncGo fuel rest

/-- Method `RobustProtocolParser.find_sync` (lines 288-316): scan window
`min(4096, available())`; when the loop exhausts the window and more than
10 bytes were skipped, `sync_errors` is incremented. -/
def findSync (st : PState) : Bool × PState :=
  match findSyncGo (min 4096 st.buf.length) st.buf with
  | .found l => (true, { st with buf := l })
  | .noData l => (false, { st with buf := l })
  | .exhausted l =>
    if 10 < min 4096 st.buf.length then
      (false, { st with buf := l, sync_errors := st.sync_errors + 1 })
    else (false, { st with buf := l })

/-- Method `RobustProtocolParser.parse_header` (lines 339-372): peek 4 bytes,
check the SOF byte, the payload-size bounds, then the XOR checksum,
incrementing the matching error counter on each failure. -/
def parseHeader (st : PState) : Option (Nat × Nat) × PState :=
  match st.buf with
  | s :: lo :: hi :: ck :: _ =>
    let size := lo + 256 * hi
    if s ≠ 170 then (none, st)
    else if size = 0 ∨ size > 65536 then
      (none, { st with parse_errors := st.parse_errors + 1 })
    else if calcChecksum [s, lo, hi] ≠ ck then
      (none, { st with checksum_errors := st.checksum_errors + 1 })
    else (some (size, ck), st)
  | _ => (none, st)

/-- Method `CircularBuffer.consume` as seen through the unread-byte list. -/
def consumeB (n : Nat) (st : PState) : Option (List Nat) × PState :=
  if st.buf.length < n then (none, st)
  else (some (st.buf.take n), { st with buf := st.buf.drop n })

/-- Little-endian 32-bit word from 4 bytes (struct format I). -/
def le32 (l : List Nat) : Nat :=
  l.getD 0 0 + 256 * l.getD 1 0 + 65536 * l.getD 2 0 + 16777216 * l.getD 3 0

/-- The sequence bookkeeping of `parse_message` (lines 470-478), with
Python integer semantics: `last_sequence_id.get(msg_type, sequence_id - 1)`
defaults to `seq - 1` (possibly -1), and `%` is Python's nonnegative
modulo (`Int.emod`).  Returns the amount added to `messages_dropped` and
the updated dictionary; the observed id is always recorded. -/
def observeSequence (last : Nat → Option Nat) (t seq : Nat) :
    Nat × (Nat → Option Nat) :=
  let lastSeq : Int := (last t).elim ((seq : Int) - 1) (fun l => (l : Int))
  let dropped : Nat :=
    if (seq : Int) ≠ (lastSeq + 1) % 65536 then
      let d := ((seq : Int) - lastSeq - 1) % 65536
      if 0 < d ∧ d < 1000 then d.toNat else 0
    else 0
  (dropped, fun u => if u = t then some seq else last u)

/-- A decoded `ProtocolMessage` (lines 104-114): type byte, 16-bit
little-endian sequence id, and the body after the 3-byte sub-header. -/
structure PMsg where
  msg_type : Nat
  sequence_id : Nat
  payload : List Nat

/-- Result of `parse_message`: `raised` models the uncaught `IndexError`
escaping from `Crc32.calculate` (the surrounding try catches only
`struct.error`); `done m st` is a normal return of `m`. -/
inductive PMRes where
  | raised : PMRes
  | done : Option PMsg → PState → PMRes

/-- Outcome of the retry loop of `parse_message` (lines 376-442):
`brk` = CRC validated, loop left with the frame payload in hand;
`ret` = `return None` taken; `raised` as above. -/
inductive AttRes where
  | raised : AttRes
  | brk : List Nat → PState → AttRes
  | ret : PState → AttRes

/-- The retry loop of `parse_message` with `max_attempts = 3`: the fuel
counts the remaining attempts, so `fuel = 0` inside an attempt means
`attempt == max_attempts - 1`. -/
def parseAttempt : Nat → PState → AttRes
  | 0, st => .ret st
  | fuel + 1, st =>
    match findSync st with
    | (false, st1) => .ret st1
    | (true, st1) =>
      match parseHeader st1 with
      | (none, st2) =>
        let st3 := { st2 with buf := st2.buf.drop 1 }
        if fuel = 0 then .ret st3 else parseAttempt fuel st3
      | (some (size, _), st2) =>
        if st2.buf.length < 4 + size + 4 then .ret st2
        else
          match consumeB 4 st2 with
          | (none, st3) => if fuel = 0 then .ret st3 else parseAttempt fuel st3
          | (some _, st3) =>
            match consumeB (size + 4) st3 with
            | (none, st4) =>
              let st5 := { st4 with parse_errors := st4.parse_errors + 1 }
              if fuel = 0 then .ret st5 else parseAttempt fuel st5
            | (some pac, st4) =>
              let payloadData := pac.take size
              let received := le32 (pac.drop size)
              match crcCalculate (payloadData.drop 3) with
              | none => .raised
              | some c =>
                if c = received then .brk payloadData st4
                else
                  let st5 := { st4 with crc_errors := st4.crc_errors + 1 }
                  if fuel = 0 then .ret st5 else parseAttempt fuel st5

/-- Method `RobustProtocolParser.parse_message` (lines 374-486): the retry loop,
then the message sub-header decode, message-type validation, sequence
bookkeeping and statistics updates. -/
def parseMessage (st : PState) : PMRes :=
  match parseAttempt 3 st with
  | .raised => .raised
  | .ret st1 => .done none st1
  | .brk payloadData st1 =>
    match payloadData with
    | t :: s1 :: s2 :: _ =>
      if 1 ≤ t ∧ t ≤ 9 then
        let seq := s1 + 256 * s2
        let od := observeSequence st1.last_sequence_id t seq
        .done (some ⟨t, seq, payloadData.drop 3⟩)
          { st1 with
            messages_dropped := st1.messages_dropped + od.1,
            last_sequence_id := od.2,
            messages_received := st1.messages_received + 1 }
      else .done none { st1 with parse_errors := st1.parse_errors + 1 }
    | _ => .done none { st1 with parse_errors := st1.parse_errors + 1 }

/-- Method `RobustProtocolParser.process_messages` (lines 488-514) with the
default handlers: types 1-5 are registered, each default handler only logs
and cannot raise, so a parsed message of type 1-5 counts as processed.
`none` models an exception escaping from `parse_message` (the try block
only wraps handler dispatch). -/
def processMessagesGo : Nat → Nat → Nat → PState → Option (Nat × PState)
  | 0, _, processed, st => some (processed, st)
  | n + 1, cf, processed, st =>
    match parseMessage st with
    | .raised => none
    | .done none st1 =>
      if 5 < cf + 1 then some (processed, st1)
      else processMessagesGo n (cf + 1) processed st1
    | .done (some m) st1 =>
      if 1 ≤ m.msg_type ∧ m.msg_type ≤ 5 then
        processMessagesGo n 0 (processed + 1) st1
      else processMessagesGo n 0 processed st1

def processMessages (st : PState) : Option (Nat × PState) :=
  processMessagesGo 50 0 0 st

/-- A complete wire frame: SOF, little-endian payload size, XOR header
checksum, payload bytes, then the 4 CRC bytes. -/
def mkFrame (size : Nat) (payload crcB : List Nat) : List Nat :=
  170 :: (size % 256) :: (size / 256) ::
    calcChecksum [170, size % 256, size / 256] :: (payload ++ crcB)

/-- C1: feeding this single well-formed 12-byte frame (payload size 4, so
the CRC input after removing the 3-byte message sub-header has length 1,
not a multiple of 4) makes `Crc32.calculate` raise `IndexError`
(`buf[i + 3]` out of range).  The exception escapes `parse_message` —
whose try block catches only `struct.error` — and `process_messages`,
whose try block wraps only handler dispatch.  The claim's no-exception
guarantee is the spec's clear intent ("no error in this subsystem is fatal")
and the code violates it on this input. -/
theorem C1_index_error_escapes :
    parseMessage (addData initPState [170, 4, 0, 174, 5, 0, 0, 1, 0, 0, 0, 0]) =
      PMRes.raised ∧
    processMessages (addData initPState [170, 4, 0, 174, 5, 0, 0, 1, 0, 0, 0, 0]) =
      none :=
  ⟨rfl, rfl⟩

lemma take_four (a b c d : Nat) (l : List Nat) :
    (a :: b :: c :: d :: l).take 4 = [a, b, c, d] := rfl

lemma validateHeader_mk (size : Nat) (h1 : 1 ≤ size) (h2 : size ≤ 65535) :
    validateHeaderQuickly
      [170, size % 256, size / 256,
        calcChecksum [170, size % 256, size / 256]] = true := by
  unfold validateHeaderQuickly
  dsimp only
  rw [if_neg (by simp : ¬ (170 : Nat) ≠ 170), Nat.mod_add_div size 256,
    if_neg (by omega : ¬ (size > 65536 ∨ size = 0))]
  simp

lemma findSyncGo_found (m : Nat) (hm : 1 ≤ m) (rest : List Nat)
    (hv : validateHeaderQuickly ((170 :: rest).take 4) = true)
    (hlen : 4 ≤ (170 :: rest).length) :
    findSyncGo m (170 :: rest) = .found (170 :: rest) := by
  obtain ⟨k, rfl⟩ : ∃ k, m = k + 1 := ⟨m - 1, by omega⟩
  unfold findSyncGo
  rw [if_pos rfl, if_pos hlen, if_pos hv]

/-- On a buffer whose head is a quickly-valid header, `find_sync` returns
True without consuming anything. -/
lemma findSync_found (st : PState) (tail : List Nat)
    (hbuf : st.buf = 170 :: tail)
    (hv : validateHeaderQuickly ((170 :: tail).take 4) = true)
    (hlen : 4 ≤ (170 :: tail).length) :
    findSync st = (true, st) := by
  unfold findSync
  rw [hbuf]
  have hm : 1 ≤ min 4096 (170 :: tail).length := by
    have hl : (170 :: tail).length = tail.length + 1 := List.length_cons _ _
    omega
  rw [findSyncGo_found _ hm tail hv hlen, ← hbuf]

/-- On an empty buffer `find_sync` scans nothing and returns False without
touching the state. -/
lemma findSync_nil (st : PState) (h : st.buf = []) : findSync st = (false, st) := by
  obtain ⟨b, c1, c2, c3, c4, c5, c6, c7⟩ := st
  dsimp only at h
  subst h
  rfl

lemma parseAttempt_nil (fuel : Nat) (st : PState) (h : st.buf = []) :
    parseAttempt (fuel + 1) st = .ret st := by
  unfold parseAttempt
  rw [findSync_nil st h]

lemma parseHeader_frame (st : PState) (size : Nat) (tail : List Nat)
    (h1 : 1 ≤ size) (h2 : size ≤ 65535)
    (hbuf : st.buf = 170 :: size % 256 :: size / 256 ::
      calcChecksum [170, size % 256, size / 256] :: tail) :
    parseHeader st =
      (some (size, calcChecksum [170, size % 256, size / 256]), st) := by
  unfold parseHeader
  rw [hbuf]
  dsimp only
  rw [if_neg (by simp : ¬ (170 : Nat) ≠ 170), Nat.mod_add_div size 256,
    if_neg (by omega : ¬ (size = 0 ∨ size > 65536)),
    if_neg (by simp : ¬ calcChecksum [170, size % 256, size / 256] ≠
      calcChecksum [170, size % 256, size / 256])]

lemma consumeB_ok (n : Nat) (st : PState) (h : n ≤ st.buf.length) :
    consumeB n st = (some (st.buf.take n), { st with buf := st.buf.drop n }) := by
  unfold consumeB
  rw [if_neg (by omega)]

/-- One attempt of the retry loop on a buffer that starts with a complete
well-formed frame: the loop reaches the CRC check with exactly the frame's
payload and received CRC word, having consumed exactly the frame. -/
lemma parseAttempt_frame (fuel : Nat) (st : PState) (size c : Nat)
    (payload crcB rest : List Nat) (hp : payload.length = size)
    (hc : crcB.length = 4) (h1 : 1 ≤ size) (h2 : size ≤ 65535)
    (hbuf : st.buf = mkFrame size payload crcB ++ rest)
    (hcrc : crcCalculate (payload.drop 3) = some c) :
    parseAttempt (fuel + 1) st =
      (if c = le32 crcB then AttRes.brk payload { st with buf := rest }
       else
         if fuel = 0 then
           AttRes.ret { st with buf := rest, crc_errors := st.crc_errors + 1 }
         else
           parseAttempt fuel
             { st with buf := rest, crc_errors := st.crc_errors + 1 }) := by
  have hbuf' : st.buf = 170 :: size % 256 :: size / 256 ::
      calcChecksum [170, size % 256, size / 256] :: (payload ++ crcB ++ rest) := by
    rw [hbuf]
    simp [mkFrame]
  have hv : validateHeaderQuickly ((170 :: size % 256 :: size / 256 ::
      calcChecksum [170, size % 256, size / 256] ::
        (payload ++ crcB ++ rest)).take 4) = true := by
    rw [take_four]
    exact validateHeader_mk size h1 h2
  have hlen4 : 4 ≤ (170 :: size % 256 :: size / 256 ::
      calcChecksum [170, size % 256, size / 256] ::
        (payload ++ crcB ++ rest)).length := by
    simp
  have hlenbuf : st.buf.length = 4 + (size + (4 + rest.length)) := by
    rw [hbuf']
    simp only [List.length_cons, List.length_append, hp, hc]
    omega
  have hlen2 : (payload ++ crcB ++ rest).length = size + (4 + rest.length) := by
    simp only [List.length_append, hp, hc]
    omega
  conv_lhs => rw [parseAttempt]
  rw [findSync_found st _ hbuf' hv hlen4]
  dsimp only
  rw [parseHeader_frame st size _ h1 h2 hbuf']
  dsimp only
  rw [if_neg (by omega : ¬ st.buf.length < 4 + size + 4),
    consumeB_ok 4 st (by omega)]
  dsimp only
  have hdrop4 : st.buf.drop 4 = payload ++ crcB ++ rest := by
    rw [hbuf']
    rfl
  rw [hdrop4]
  rw [consumeB_ok (size + 4) _ (by dsimp only; omega)]
  dsimp only
  have htk : (payload ++ crcB ++ rest).take (size + 4) = payload ++ crcB := by
    rw [List.append_assoc, List.take_append_eq_append_take,
      List.take_of_length_le (by omega : payload.length ≤ size + 4), hp,
      Nat.add_sub_cancel_left, List.take_append_eq_append_take,
      List.take_of_length_le (by omega : crcB.length ≤ 4), hc, Nat.sub_self,
      List.take_zero, List.append_nil]
  have hdr : (payload ++ crcB ++ rest).drop (size + 4) = rest := by
    rw [List.append_assoc, List.drop_append_eq_append_drop, hp,
      List.drop_of_length_le (by omega : payload.length ≤ size + 4),
      Nat.add_sub_cancel_left, List.drop_append_eq_append_drop, hc,
      List.drop_of_length_le (by omega : crcB.length ≤ 4), Nat.sub_self,
      List.drop_zero, List.nil_append, List.nil_append]
  rw [htk, hdr]
  have htkp : (payload ++ crcB).take size = payload := List.take_left' hp
  have hdrp : (payload ++ crcB).drop size = crcB := List.drop_left' hp
  rw [htkp, hdrp, hcrc]

/-- C3: for every well-formed frame at the head of the buffer, a
`ProtocolMessage` is produced from it only if the trailing little-endian
CRC32 equals the STM32-compatible CRC of the payload with the 3-byte
message sub-header excluded.  First conjunct (frame is the sole buffer
content, CRC mismatch): the frame's bytes are consumed, `crc_errors` is
incremented, and no message is returned.  Second conjunct (CRC matches,
valid message type): exactly the frame's message is returned, the frame is
consumed, and `crc_errors` is untouched. -/
theorem C3_crc_gates_message (st : PState) (size : Nat)
    (payload crcB : List Nat) (hp : payload.length = size)
    (hc : crcB.length = 4) (h1 : 1 ≤ size) (h2 : size ≤ 65535) :
    (∀ c, crcCalculate (payload.drop 3) = some c → c ≠ le32 crcB →
      st.buf = mkFrame size payload crcB →
      parseMessage st =
        .done none { st with buf := [], crc_errors := st.crc_errors + 1 }) ∧
    (∀ rest t s1 s2 body, payload = t :: s1 :: s2 :: body →
      1 ≤ t → t ≤ 9 →
      crcCalculate (payload.drop 3) = some (le32 crcB) →
      st.buf = mkFrame size payload crcB ++ rest →
      parseMessage st =
        .done (some ⟨t, s1 + 256 * s2, payload.drop 3⟩)
          { st with
            buf := rest,
            messages_dropped := st.messages_dropped +
              (observeSequence st.last_sequence_id t (s1 + 256 * s2)).1,
            last_sequence_id :=
              (observeSequence st.last_sequence_id t (s1 + 256 * s2)).2,
            messages_received := st.messages_received + 1 }) := by
  constructor
  · intro c hcrc hne hbuf
    unfold parseMessage
    rw [parseAttempt_frame 2 st size c payload crcB [] hp hc h1 h2
      (by rw [hbuf, List.append_nil]) hcrc]
    rw [if_neg hne, if_neg (by omega : ¬ (2 : Nat) = 0)]
    rw [parseAttempt_nil 1 _ rfl]
  · intro rest t s1 s2 body hpay ht1 ht9 hcrc hbuf
    unfold parseMessage
    rw [parseAttempt_frame 2 st size (le32 crcB) payload crcB rest hp hc h1 h2
      hbuf hcrc]
    rw [if_pos rfl]
    subst hpay
    dsimp only
    rw [if_pos ⟨ht1, ht9⟩]

/-- Witness for C3: a heartbeat frame (payload `[5,0,0]`, so the CRC input
is empty and the STM32 CRC is the initial value 0xFFFFFFFF).  With a wrong
trailing CRC `[1,2,3,4]` the frame is consumed and counted; with the
correct trailing CRC `[255,255,255,255]` the message is delivered. -/
theorem C3_witness :
    parseMessage { initPState with buf := mkFrame 3 [5, 0, 0] [1, 2, 3, 4] } =
      PMRes.done none ⟨[], 0, 0, 1, 0, 0, 0, fun _ => none⟩ ∧
    parseMessage
        { initPState with buf := mkFrame 3 [5, 0, 0] [255, 255, 255, 255] } =
      PMRes.done (some ⟨5, 0, []⟩)
        ⟨[], 0, 0, 0, 0, 1, 0, fun u => if u = 5 then some 0 else none⟩ := by
  constructor
  · exact ((C3_crc_gates_message _ 3 [5, 0, 0] [1, 2, 3, 4] rfl rfl
      (by decide) (by decide)).1 4294967295 rfl (by decide) rfl).trans (by rfl)
  · exact ((C3_crc_gates_message _ 3 [5, 0, 0] [255, 255, 255, 255] rfl rfl
      (by decide) (by decide)).2 [] 5 0 0 [] rfl (by decide) (by decide)
      (by decide) (List.append_nil _).symm).trans (by rfl)

/-- The unread buffer contents after a `parse_message` call (`none` when
the call raised). -/
def PMRes.bufAfter : PMRes → Option (List Nat)
  | .raised => none
  | .done _ st => some st.buf

/-- C6 counterexample: with only the 1-byte prefix `[0xAA]` of a
well-formed frame buffered (shorter than the 4-byte header), the failed
header parse makes `parse_message` consume the SOF byte ("consume SOF and
try again", line 387), so the buffer is not left byte-for-byte unchanged:
it ends empty instead of still holding `[0xAA]`. -/
theorem C6_counterexample :
    (parseMessage { initPState with buf := [170] }).bufAfter ≠ some [170] := by
  decide

/-- C6 (amended): when the buffer holds a proper prefix of length at least
4 of a single well-formed frame (valid SOF, valid header checksum,
plausible nonzero size, but fewer than header+payload+CRC bytes),
`parse_message` returns no message and leaves the state — unread bytes and
all counters — untouched.  For prefixes of length 1-3 the SOF byte is
consumed (counterexample above); the empty prefix is also untouched. -/
theorem C6_insufficient_data_keeps_buffer (st : PState) (size p : Nat)
    (payload crcB : List Nat) (hp : payload.length = size)
    (hc : crcB.length = 4) (h1 : 1 ≤ size) (h2 : size ≤ 65535)
    (hple : 4 ≤ p) (hplt : p < 4 + size + 4)
    (hbuf : st.buf = (mkFrame size payload crcB).take p) :
    parseMessage st = .done none st := by
  obtain ⟨k, rfl⟩ : ∃ k, p = k + 4 := ⟨p - 4, by omega⟩
  have hbuf' : st.buf = 170 :: size % 256 :: size / 256 ::
      calcChecksum [170, size % 256, size / 256] ::
        ((payload ++ crcB).take k) := by
    rw [hbuf]
    unfold mkFrame
    rfl
  have hv : validateHeaderQuickly ((170 :: size % 256 :: size / 256 ::
      calcChecksum [170, size % 256, size / 256] ::
        ((payload ++ crcB).take k)).take 4) = true := by
    rw [take_four]
    exact validateHeader_mk size h1 h2
  have hlen4 : 4 ≤ (170 :: size % 256 :: size / 256 ::
      calcChecksum [170, size % 256, size / 256] ::
        ((payload ++ crcB).take k)).length := by
    simp
  have hlenbuf : st.buf.length < 4 + size + 4 := by
    rw [hbuf']
    simp only [List.length_cons, List.length_take, List.length_append, hp, hc]
    omega
  have hatt : parseAttempt 3 st = .ret st := by
    conv_lhs => rw [parseAttempt]
    rw [findSync_found st _ hbuf' hv hlen4]
    dsimp only
    rw [parseHeader_frame st size _ h1 h2 hbuf']
    dsimp only
    rw [if_pos hlenbuf]
  unfold parseMessage
  rw [hatt]

/-- Witness for C6: a 5-byte prefix (header plus one payload byte) of a
well-formed heartbeat frame is left untouched. -/
theorem C6_witness :
    parseMessage
        { initPState with buf := (mkFrame 3 [5, 0, 0] [1, 2, 3, 4]).take 5 } =
      PMRes.done none
        { initPState with buf := (mkFrame 3 [5, 0, 0] [1, 2, 3, 4]).take 5 } :=
  C6_insufficient_data_keeps_buffer _ 3 5 [5, 0, 0] [1, 2, 3, 4] rfl rfl
    (by decide) (by decide) (by decide) (by decide) rfl

/-- C8: the sequence tracking of `parse_message` adds 0 dropped messages
on the first observed sequence id of a type and on a duplicate of the
last-seen id; when the wraparound-aware gap
`(seq + 65536 - (last + 1)) % 65536` is positive and below 1000 it adds
exactly that gap; it adds nothing for larger gaps; and it always records
the observed id as the new last-seen value. -/
theorem C8_sequence_tracking (last : Nat → Option Nat) (t seq : Nat)
    (hseq : seq < 65536) :
    ((observeSequence last t seq).2 t = some seq) ∧
    (last t = none → (observeSequence last t seq).1 = 0) ∧
    (last t = some seq → (observeSequence last t seq).1 = 0) ∧
    (∀ l, last t = some l → l < 65536 →
      (0 < (seq + 65536 - (l + 1)) % 65536 →
        (seq + 65536 - (l + 1)) % 65536 < 1000 →
        (observeSequence last t seq).1 = (seq + 65536 - (l + 1)) % 65536) ∧
      ((seq + 65536 - (l + 1)) % 65536 = 0 ∨
          1000 ≤ (seq + 65536 - (l + 1)) % 65536 →
        (observeSequence last t seq).1 = 0)) := by
  refine ⟨?_, ?_, ?_, ?_⟩
  · unfold observeSequence
    dsimp only
    rw [if_pos rfl]
  · intro h
    unfold observeSequence
    rw [h]
    dsimp only [Option.elim]
    split_ifs with hc hd <;> omega
  · intro h
    unfold observeSequence
    rw [h]
    dsimp only [Option.elim]
    split_ifs with hc hd <;> omega
  · intro l hl hl2
    constructor
    · intro hg1 hg2
      unfold observeSequence
      rw [hl]
      dsimp only [Option.elim]
      split_ifs with hc hd <;> omega
    · intro hg
      unfold observeSequence
      rw [hl]
      dsimp only [Option.elim]
      rcases hg with hg | hg <;> split_ifs with hc hd <;> omega

/-- Witness for C8, replaying the claim's `1,2,4` scenario for one type:
the first observation adds 0, the in-order step adds 0, the skip from 2 to
4 adds exactly 1, and the id is recorded. -/
theorem C8_witness :
    (observeSequence (fun _ => none) 3 1).1 = 0 ∧
    (observeSequence (fun u => if u = 3 then some 1 else none) 3 2).1 = 0 ∧
    (observeSequence (fun u => if u = 3 then some 2 else none) 3 4).1 = 1 ∧
    (observeSequence (fun u => if u = 3 then some 2 else none) 3 4).2 3 =
      some 4 := by
  refine ⟨?_, ?_, ?_, ?_⟩
  · exact (C8_sequence_tracking (fun _ => none) 3 1 (by decide)).2.1 rfl
  · have h := ((C8_sequence_tracking (fun u => if u = 3 then some 1 else none)
      3 2 (by decide)).2.2.2 1 rfl (by decide)).2
    exact h (Or.inl (by decide))
  · have h := ((C8_sequence_tracking (fun u => if u = 3 then some 2 else none)
      3 4 (by decide)).2.2.2 2 rfl (by decide)).1
    exact (h (by decide) (by decide)).trans (by decide)
  · exact (C8_sequence_tracking (fun u => if u = 3 then some 2 else none)
      3 4 (by decide)).1

/-! ## `DetectionDataParser.parse_detections` (lines 613-655) -/

/-- One parsed detection record.  The five float fields are kept as their
raw little-endian 32-bit words: `struct.unpack` cannot fail on the guarded
28-byte slices and no property at stake depends on float decoding. -/
structure Det where
  class_id : Nat
  x : Nat
  y : Nat
  w : Nat
  h : Nat
  confidence : Nat
  keypoints : List Nat
deriving DecidableEq

/-- Little-endian 32-bit word at byte offset `off` of the payload. -/
def leWordAt (payload : List Nat) (off : Nat) : Nat :=
  payload.getD off 0 + 256 * payload.getD (off + 1) 0 +
    65536 * payload.getD (off + 2) 0 + 16777216 * payload.getD (off + 3) 0

/-- The detection loop (lines 633-648): stop (`break`) at the first record
for which 28 bytes are not available; read the fixed 28-byte record; read
the declared keypoints only when they fit completely, otherwise keep
`keypoints = []` and do not advance past them. -/
def parseDetGo (payload : List Nat) : Nat → Nat → List Det
  | 0, _ => []
  | n + 1, off =>
    if payload.length < off + 28 then []
    else
      let kpCount := leWordAt payload (off + 24)
      let d : Det :=
        { class_id := leWordAt payload off, x := leWordAt payload (off + 4),
          y := leWordAt payload (off + 8), w := leWordAt payload (off + 12),
          h := leWordAt payload (off + 16),
          confidence := leWordAt payload (off + 20), keypoints := [] }
      if off + 28 + kpCount * 8 ≤ payload.length then
        let kps := (List.range (kpCount * 2)).map
          (fun j => leWordAt payload (off + 28 + 4 * j))
        { d with keypoints := kps } :: parseDetGo payload n (off + 28 + kpCount * 8)
      else d :: parseDetGo payload n (off + 28)

/-- Method `DetectionDataParser.parse_detections` (lines 616-655): `None` for a
payload shorter than 8 bytes or a declared count above 100; otherwise the
frame id and the records parsed until the first that does not fit. -/
def parseDetections (payload : List Nat) : Option (Nat × List Det) :=
  if payload.length < 8 then none
  else
    let detectionCount := leWordAt payload 4
    if 100 < detectionCount then none
    else some (leWordAt payload 0, parseDetGo payload detectionCount 8)

lemma parseDetGo_length (payload : List Nat) :
    ∀ n off, (parseDetGo payload n off).length ≤ n := by
  intro n
  induction n with
  | zero => intro off; simp [parseDetGo]
  | succ n ih =>
    intro off
    by_cases hfit : payload.length < off + 28
    · simp [parseDetGo, hfit]
    · by_cases hkp : off + 28 + (leWordAt payload (off + 24)) * 8 ≤
        payload.length
      · simp only [parseDetGo, if_neg hfit, if_pos hkp, List.length_cons]
        exact Nat.succ_le_succ (ih _)
      · simp only [parseDetGo, if_neg hfit, if_neg hkp, List.length_cons]
        exact Nat.succ_le_succ (ih _)

/-- A concrete detection payload declaring 2 detections but containing
only one 28-byte record after the 8-byte header. -/
def shortDetPayload : List Nat :=
  [7, 0, 0, 0, 2, 0, 0, 0, 1, 0, 0, 0] ++ List.replicate 24 0

/-- C10: `parse_detections` returns `None` exactly when the payload is
shorter than 8 bytes or the declared detection count exceeds 100; every
other payload yields `Some (frame_id, detections)` with at most the
declared number of detections; and a payload too short for its declared
count silently yields fewer detections with no error — the concrete
`shortDetPayload` declares 2 and yields 1. -/
theorem C10_detection_parser_behavior :
    (∀ payload : List Nat,
      parseDetections payload = none ↔
        (payload.length < 8 ∨ 100 < leWordAt payload 4)) ∧
    (∀ (payload : List Nat) (fr : Nat) (ds : List Det),
      parseDetections payload = some (fr, ds) →
      fr = leWordAt payload 0 ∧ ds.length ≤ leWordAt payload 4) ∧
    (parseDetections shortDetPayload =
        some (7, [⟨1, 0, 0, 0, 0, 0, []⟩]) ∧
      leWordAt shortDetPayload 4 = 2) := by
  refine ⟨?_, ?_, ?_⟩
  · intro payload
    unfold parseDetections
    dsimp only
    split_ifs with g1 g2
    · exact ⟨fun _ => Or.inl g1, fun _ => rfl⟩
    · exact ⟨fun _ => Or.inr g2, fun _ => rfl⟩
    · constructor
      · intro h
        exact absurd h (by simp)
      · intro h
        rcases h with h | h
        · exact absurd h g1
        · exact absurd h g2
  · intro payload fr ds h
    unfold parseDetections at h
    dsimp only at h
    split_ifs at h with g1 g2
    rw [Option.some.injEq, Prod.mk.injEq] at h
    obtain ⟨h1, h2⟩ := h
    exact ⟨h1.symm, h2 ▸ parseDetGo_length payload _ 8⟩
  · exact ⟨by decide, by decide⟩

/-- Witness for C10: the empty payload is rejected, via the theorem. -/
theorem C10_witness : parseDetections [] = none :=
  (C10_detection_parser_behavior.1 []).mpr (Or.inl (by decide))

end STM32Proto
